import Mathlib

/-!
Verification of `insert-bfactor.py`: a script that merges per-residue
b-factor annotations (keyed by chain id and sequence id) into the fixed
columns of a PDB file.

Embedding conventions:
* a text line is a `List Char`; Python slices `line[a:b]` become
  `(line.drop a).take (b - a)`;
* Python floats are modelled exactly as sign-magnitude rationals
  `(-1)^neg * num / den` (constructor `BFloat.val`, the sign bit
  separate so signed zero exists), plus `nan` and signed `inf`
  sentinels; IEEE double rounding of decimal literals is not modelled,
  values coming from the annotation file are kept exact;
* dictionaries are association lists in insertion order;
  `collections.defaultdict(dict)` indexing, which may insert an empty
  inner dict, is modelled by explicit state passing (`ddIndex` returns
  the possibly-grown dictionary);
* fallible code (`create_bfac_dict`, which can raise `IndexError` on a
  short line or `ValueError` from `float`) returns `Except LoadError`.
-/

namespace InsertBfactor

/-- Python float values: not-a-number, signed infinity, or an exact
sign-magnitude rational `(-1)^neg * num / den` (with `den` a positive
power of ten as produced by the decimal parser).  The sign is a
separate bit because Python's formatter prints the sign of the value —
`"{:6.2f}".format(-0.001)` is ` -0.00` — and `float("-0.0")` keeps its
sign bit, so a signed zero must be representable. -/
inductive BFloat where
  | nan : BFloat
  | inf : Bool → BFloat
  | val : Bool → Nat → Nat → BFloat
deriving DecidableEq, Repr

/-- Keys of the b-factor dictionaries are strings (as character lists). -/
abbrev Key := List Char

/-- The inner dictionaries: sequence id to b-factor value. -/
abbrev InnerDict := List (Key × BFloat)

/-- The outer dictionary built by `create_bfac_dict`: chain id to inner
dictionary. -/
abbrev BDict := List (Key × InnerDict)

/-- Association-list lookup, first match wins (keys are unique by
construction, as in a Python dict). -/
def lookupKV {β : Type} : List (Key × β) → Key → Option β
  | [], _ => none
  | (k', v) :: rest, k => if k' = k then some v else lookupKV rest k

/-- Python `k in d`. -/
def containsKV {β : Type} (d : List (Key × β)) (k : Key) : Bool :=
  (lookupKV d k).isSome

/-- Python `d[k] = v`: replace in place when the key is present, else
append (Python dicts preserve insertion order). -/
def setKV {β : Type} : List (Key × β) → Key → β → List (Key × β)
  | [], k, v => [(k, v)]
  | (k', v') :: rest, k, v =>
    if k' = k then (k, v) :: rest else (k', v') :: setKV rest k v

/-- Python `bfac_dict[chain_id]` on a `defaultdict(dict)`: return the
inner dict, inserting a fresh empty one first when the key is absent.
The possibly-grown outer dict is returned alongside. -/
def ddIndex (d : BDict) (k : Key) : InnerDict × BDict :=
  match lookupKV d k with
  | some inner => (inner, d)
  | none => ([], setKV d k [])

/-- Python `bfac_dict[chain_id][seq_id] = v` on a `defaultdict(dict)`. -/
def ddSetBfac (d : BDict) (chain seq : Key) (v : BFloat) : BDict :=
  let p := ddIndex d chain
  setKV p.2 chain (setKV p.1 seq v)

/-- Python `str.rstrip()`: drop trailing whitespace. -/
def pyRstrip (s : List Char) : List Char :=
  (s.reverse.dropWhile Char.isWhitespace).reverse

/-- Python `str.strip()`: drop leading and trailing whitespace. -/
def pyStrip (s : List Char) : List Char :=
  pyRstrip (s.dropWhile Char.isWhitespace)

/-- Accumulator-passing worker for `pySplit`; `acc` is the current token
reversed. -/
def pySplitAux : List Char → List Char → List (List Char)
  | [], acc => if acc.isEmpty then [] else [acc.reverse]
  | c :: rest, acc =>
    if c.isWhitespace then
      if acc.isEmpty then pySplitAux rest []
      else acc.reverse :: pySplitAux rest []
    else pySplitAux rest (c :: acc)

/-- Python `str.split()` with no argument: split on runs of whitespace,
producing no empty tokens. -/
def pySplit (s : List Char) : List (List Char) :=
  pySplitAux s []

/-- Leading sign of a numeric literal: `(isNegative, rest)`. -/
def parseSign : List Char → Bool × List Char
  | c :: r =>
    if c = ('-') then (true, r)
    else if c = ('+') then (false, r) else (false, c :: r)
  | [] => (false, [])

/-- Value of a list of decimal digit characters. -/
def digitsToNat (ds : List Char) : Nat :=
  ds.foldl (fun a c => a * 10 + (c.toNat - 48)) 0

/-- The decimal part of Python's `float()` grammar, after lowercasing
and sign removal: `digits [. digits] [e [sign] digits]` with at least
one mantissa digit.  Returns the exact value `sgn * mant / 10^k`.
(Digit-group underscores, accepted by CPython, are not modelled.) -/
def parseDecimal (neg : Bool) (s : List Char) : Option BFloat :=
  let intDs := s.takeWhile Char.isDigit
  let r1 := s.dropWhile Char.isDigit
  let fracDs :=
    match r1 with
    | c :: r2 => if c = ('.') then r2.takeWhile Char.isDigit else []
    | [] => []
  let r3 :=
    match r1 with
    | c :: r2 => if c = ('.') then r2.dropWhile Char.isDigit else r1
    | [] => []
  if intDs.isEmpty && fracDs.isEmpty then none
  else
    let mant : Nat := digitsToNat (intDs ++ fracDs)
    match r3 with
    | [] => some (.val neg mant ((10 : Nat) ^ fracDs.length))
    | c :: r4 =>
      if c = ('e') then
        let se := parseSign r4
        let expDs := se.2.takeWhile Char.isDigit
        if expDs.isEmpty ∨ ¬ (se.2.dropWhile Char.isDigit).isEmpty then none
        else
          let e := digitsToNat expDs
          if se.1 then some (.val neg mant ((10 : Nat) ^ (fracDs.length + e)))
          else some (.val neg (mant * (10 : Nat) ^ e) ((10 : Nat) ^ fracDs.length))
      else none

/-- Python `float(token)`: strip whitespace, lowercase, then an optional
sign followed by `inf`/`infinity`/`nan` or a decimal literal. `none`
models the `ValueError` that `float` raises on anything else. -/
def pyFloat? (s : List Char) : Option BFloat :=
  let t := (pyStrip s).map Char.toLower
  let p := parseSign t
  if p.2 = ("inf").data ∨ p.2 = ("infinity").data then some (.inf p.1)
  else if p.2 = ("nan").data then some (.nan)
  else parseDecimal p.1 p.2

/-- Round `n / d` (with `d > 0`) to the nearest natural number, ties to
even: the rounding Python's fixed-point formatting performs.  It is
applied to the magnitude; round-half-even commutes with negation, so
this matches rounding the signed value. -/
def rneFrac (n d : Nat) : Nat :=
  let f := n / d
  let r := n - f * d
  if 2 * r < d then f
  else if 2 * r > d then f + 1
  else if 2 ∣ f then f else f + 1

/-- Decimal digits of a natural number, most significant first; the
first argument is structural fuel (`n + 1` always suffices). -/
def natDigitsAux : Nat → Nat → List Char
  | 0, _ => []
  | fuel + 1, n =>
    if n < 10 then [Char.ofNat (48 + n)]
    else natDigitsAux fuel (n / 10) ++ [Char.ofNat (48 + n % 10)]

/-- Decimal digits of a natural number, most significant first. -/
def natDigits (n : Nat) : List Char :=
  natDigitsAux (n + 1) n

/-- Python `"{:6.2f}".format(x)`: two decimal places, right-justified in
a field of at least six characters (wider values are not truncated).
The minus sign follows the value's sign bit, so a negative value whose
magnitude rounds to zero still prints ` -0.00`. -/
def pyFmt62 (b : BFloat) : List Char :=
  match b with
  | .nan => ("   nan").data
  | .inf s => if s then ("  -inf").data else ("   inf").data
  | .val neg num den =>
    let m := rneFrac (num * 100) den
    let body :=
      natDigits (m / 100) ++ ['.'] ++
        (if m % 100 < 10 then [('0')] else []) ++ natDigits (m % 100)
    let s := (if neg then [('-')] else []) ++ body
    List.replicate (6 - s.length) (' ') ++ s

/-- The two exceptions `create_bfac_dict` can raise while parsing a
line: `IndexError` from `line[1]`/`line[2]` on a short token list,
`ValueError` from `float(line[2])`. -/
inductive LoadError where
  | indexError : LoadError
  | valueError : LoadError
deriving DecidableEq, Repr

/-- One iteration of the loop body of `create_bfac_dict`:
`line = line.split(); bfac_dict[line[0]][line[1]] = float(line[2])`. -/
def parseBfacLine (d : BDict) (l : List Char) : Except LoadError BDict :=
  match pySplit l with
  | t0 :: t1 :: t2 :: _ =>
    match pyFloat? t2 with
    | some b => .ok (ddSetBfac d t0 t1 b)
    | none => .error .valueError
  | _ => .error .indexError

/-- The loop of `create_bfac_dict` over the blank-filtered lines. -/
def createGo (d : BDict) : List (List Char) → Except LoadError BDict
  | [] => .ok d
  | l :: ls =>
    match parseBfacLine d l with
    | .ok d2 => createGo d2 ls
    | .error e => .error e

/-- `filter(None, (line.rstrip() for line in bfac_file))`: rstrip every
line and drop the (falsy) empty results. -/
def filteredLines (fileLines : List (List Char)) : List (List Char) :=
  (fileLines.map pyRstrip).filter (fun l => !l.isEmpty)

/-- `create_bfac_dict`, on the file's lines: build the nested b-factor
dictionary, propagating the first parse failure. -/
def create_bfac_dict (fileLines : List (List Char)) : Except LoadError BDict :=
  createGo [] (filteredLines fileLines)

/-- The record-type tag of ATOM lines, `line[0:6] == "ATOM  "`. -/
def atomTag : List Char := ("ATOM  ").data

/-- The record-type tag of HETATM lines, `line[0:6] == "HETATM"`. -/
def hetatmTag : List Char := ("HETATM").data

/-- `line[20:22].strip()`: the chain id columns of an ATOM line. -/
def chainOf (line : List Char) : Key :=
  pyStrip ((line.drop 20).take 2)

/-- `line[23:26].strip()`: the sequence id columns of an ATOM line. -/
def seqOf (line : List Char) : Key :=
  pyStrip ((line.drop 23).take 3)

/-- `"{prefix}{bfac:6.2f}{suffix}".format(prefix=line[:60], bfac=b,
suffix=line[66:])`. -/
def splice (line : List Char) (b : BFloat) : List Char :=
  line.take 60 ++ pyFmt62 b ++ line.drop 66

/-- The loop body of `insert_bfac_into_pdb` on one line.  The dictionary
is threaded through because `bfac_dict[chain_id]` on a `defaultdict`
could grow it; the short-circuit `and` of
`chain_id in bfac_dict and seq_id in bfac_dict[chain_id]` is the nested
`if`.  The `getD default_value` in the innermost branch is unreachable
(`seq` was just found in `inner2`), mirroring that Python raises no
`KeyError` there. -/
def processLine (d : BDict) (default_value : BFloat) (line : List Char) :
    List Char × BDict :=
  if line.take 6 = atomTag then
    let chain := chainOf line
    let seq := seqOf line
    if containsKV d chain then
      let p1 := ddIndex d chain
      if containsKV p1.1 seq then
        let p2 := ddIndex p1.2 chain
        (splice line ((lookupKV p2.1 seq).getD default_value), p2.2)
      else (splice line default_value, p1.2)
    else (splice line default_value, d)
  else if line.take 6 = hetatmTag then
    (splice line default_value, d)
  else (line, d)

/-- The loop of `insert_bfac_into_pdb`, threading the dictionary. -/
def insertGo (default_value : BFloat) : BDict → List (List Char) →
    List (List Char) × BDict
  | d, [] => ([], d)
  | d, line :: rest =>
    let p := processLine d default_value line
    let q := insertGo default_value p.2 rest
    (p.1 :: q.1, q.2)

/-- `insert_bfac_into_pdb(pdb, bfac_dict, default_value)`: the rewritten
lines, paired with the final state of the (mutable, in Python)
dictionary argument. -/
def insert_bfac_into_pdb (pdb : List (List Char)) (bfac_dict : BDict)
    (default_value : BFloat) : List (List Char) × BDict :=
  insertGo default_value bfac_dict pdb

/-- The value an ATOM line receives: the table's entry when both the
chain and the sequence key are present, the default otherwise. -/
def bfacLookup (d : BDict) (chain seq : Key) (default_value : BFloat) :
    BFloat :=
  match lookupKV d chain with
  | some inner => (lookupKV inner seq).getD default_value
  | none => default_value

/-- The value spliced into a classified line: the table lookup for ATOM
lines, the default for HETATM lines (and for unclassified lines, where
it is never used). -/
def lineValue (d : BDict) (default_value : BFloat) (line : List Char) :
    BFloat :=
  if line.take 6 = atomTag then
    bfacLookup d (chainOf line) (seqOf line) default_value
  else default_value

/-- What `processLine` does to the line, as a pure function of the
initial dictionary. -/
def rewriteLine (d : BDict) (default_value : BFloat) (line : List Char) :
    List Char :=
  if line.take 6 = atomTag then
    splice line (bfacLookup d (chainOf line) (seqOf line) default_value)
  else if line.take 6 = hetatmTag then
    splice line default_value
  else line

/-- A (rstripped) annotation line that makes `create_bfac_dict` abort:
fewer than three whitespace-separated tokens, or a third token that
`float` rejects. -/
def malformedLine (l : List Char) : Bool :=
  match pySplit l with
  | _ :: _ :: t2 :: _ => (pyFloat? t2).isNone
  | _ => true

/-! ## Dictionary lemmas -/

theorem setKV_ne_nil {β : Type} (d : List (Key × β)) (k : Key) (v : β) :
    setKV d k v ≠ [] := by
  cases d with
  | nil => simp [setKV]
  | cons a rest =>
    obtain ⟨k', v'⟩ := a
    unfold setKV
    split <;> simp

theorem lookupKV_setKV {β : Type} (d : List (Key × β)) (k : Key) (v : β)
    (k' : Key) :
    lookupKV (setKV d k v) k' = if k = k' then some v else lookupKV d k' := by
  induction d with
  | nil => simp [setKV, lookupKV]
  | cons a rest ih =>
    obtain ⟨ka, va⟩ := a
    unfold setKV
    by_cases hak : ka = k
    · subst hak
      simp only [if_pos rfl, lookupKV]
      by_cases hk : ka = k' <;> simp [hk]
    · rw [if_neg hak]
      unfold lookupKV
      by_cases hka' : ka = k'
      · have hkk : ¬ k = k' := fun h => hak (hka'.trans h.symm)
        simp [hka', hkk]
      · simp [hka', ih]

theorem ddIndex_eq_of_lookup (d : BDict) (k : Key) (inner : InnerDict)
    (h : lookupKV d k = some inner) : ddIndex d k = (inner, d) := by
  unfold ddIndex
  rw [h]

theorem ddSetBfac_lookup (d : BDict) (c s : Key) (v : BFloat) (c' : Key) :
    lookupKV (ddSetBfac d c s v) c' =
      if c = c' then some (setKV ((lookupKV d c).getD []) s v)
      else lookupKV d c' := by
  unfold ddSetBfac ddIndex
  cases h : lookupKV d c with
  | some inner => simp [h, lookupKV_setKV]
  | none =>
    simp only [h, Option.getD_none]
    rw [lookupKV_setKV]
    by_cases hc : c = c'
    · simp [hc]
    · simp [hc, lookupKV_setKV, h]

/-! ## The rewriter as a pure map -/

theorem processLine_eq (d : BDict) (dv : BFloat) (line : List Char) :
    processLine d dv line = (rewriteLine d dv line, d) := by
  unfold processLine rewriteLine
  by_cases ha : line.take 6 = atomTag
  · simp only [ha, if_true]
    cases hc : lookupKV d (chainOf line) with
    | none =>
      have hcf : containsKV d (chainOf line) = false := by
        simp [containsKV, hc]
      simp [hcf, bfacLookup, hc]
    | some inner =>
      have hct : containsKV d (chainOf line) = true := by
        simp [containsKV, hc]
      have hdd : ddIndex d (chainOf line) = (inner, d) :=
        ddIndex_eq_of_lookup _ _ _ hc
      simp only [hct, if_true, hdd]
      cases hs : lookupKV inner (seqOf line) with
      | none =>
        have hsf : containsKV inner (seqOf line) = false := by
          simp [containsKV, hs]
        simp [hsf, bfacLookup, hc, hs]
      | some b =>
        have hst : containsKV inner (seqOf line) = true := by
          simp [containsKV, hs]
        simp [hst, hdd, hs, bfacLookup, hc]
  · have hne : hetatmTag ≠ atomTag := by decide
    by_cases hh : line.take 6 = hetatmTag <;> simp [ha, hh, hne]

theorem insertGo_eq (dv : BFloat) (d : BDict) (pdb : List (List Char)) :
    insertGo dv d pdb = (pdb.map (rewriteLine d dv), d) := by
  induction pdb with
  | nil => rfl
  | cons l ls ih => simp [insertGo, processLine_eq, ih]

theorem insert_eq (pdb : List (List Char)) (d : BDict) (dv : BFloat) :
    insert_bfac_into_pdb pdb d dv = (pdb.map (rewriteLine d dv), d) :=
  insertGo_eq dv d pdb

/-! ## Splice algebra -/

theorem six_le_length_of_take6 (line t : List Char) (ht : t.length = 6)
    (h : line.take 6 = t) : 6 ≤ line.length := by
  have h2 := congrArg List.length h
  rw [List.length_take, ht] at h2
  omega

theorem splice_assoc (line : List Char) (b : BFloat) :
    splice line b = line.take 60 ++ (pyFmt62 b ++ line.drop 66) := by
  unfold splice
  rw [List.append_assoc]

theorem splice_inner_slice (line : List Char) (b : BFloat) (a n : Nat)
    (han : a + n ≤ 60) (h60 : 60 ≤ line.length) :
    ((splice line b).drop a).take n = (line.drop a).take n := by
  have hT : (line.take 60).length = 60 := by
    rw [List.length_take]; omega
  have h1 : (splice line b).drop a
      = (line.take 60).drop a ++ (pyFmt62 b ++ line.drop 66) := by
    rw [splice_assoc, List.drop_append_eq_append_drop, hT]
    have h0 : a - 60 = 0 := by omega
    rw [h0, List.drop_zero]
  rw [h1, List.take_append_of_le_length (by rw [List.length_drop, hT]; omega)]
  rw [List.drop_take, List.take_take]
  congr 1
  omega

theorem splice_take6 (line : List Char) (b : BFloat) (h60 : 60 ≤ line.length) :
    (splice line b).take 6 = line.take 6 := by
  have h := splice_inner_slice line b 0 6 (by omega) h60
  simpa using h

theorem splice_chainOf (line : List Char) (b : BFloat) (h60 : 60 ≤ line.length) :
    chainOf (splice line b) = chainOf line := by
  unfold chainOf
  rw [splice_inner_slice line b 20 2 (by omega) h60]

theorem splice_seqOf (line : List Char) (b : BFloat) (h60 : 60 ≤ line.length) :
    seqOf (splice line b) = seqOf line := by
  unfold seqOf
  rw [splice_inner_slice line b 23 3 (by omega) h60]

theorem splice_take60 (line : List Char) (b : BFloat) (h60 : 60 ≤ line.length) :
    (splice line b).take 60 = line.take 60 := by
  have hT : (line.take 60).length = 60 := by
    rw [List.length_take]; omega
  rw [splice_assoc, List.take_append_of_le_length (by rw [hT]),
    List.take_take]
  norm_num

theorem splice_drop66 (line : List Char) (b : BFloat) (h60 : 60 ≤ line.length)
    (hb : (pyFmt62 b).length = 6) :
    (splice line b).drop 66 = line.drop 66 := by
  have hT : (line.take 60).length = 60 := by
    rw [List.length_take]; omega
  rw [splice_assoc, List.drop_append_eq_append_drop, hT,
    List.drop_eq_nil_of_le (by rw [hT]; omega)]
  rw [List.drop_append_eq_append_drop, hb]
  have h6 : (66 : Nat) - 60 = 6 := by omega
  rw [h6, List.drop_eq_nil_of_le (by rw [hb]), Nat.sub_self, List.drop_zero,
    List.nil_append, List.nil_append]

theorem splice_length (line : List Char) (b : BFloat) (h66 : 66 ≤ line.length)
    (hb : (pyFmt62 b).length = 6) :
    (splice line b).length = line.length := by
  unfold splice
  rw [List.length_append, List.length_append, List.length_take,
    List.length_drop, hb]
  omega

theorem splice_splice (line : List Char) (b : BFloat) (h60 : 60 ≤ line.length)
    (hb : (pyFmt62 b).length = 6) :
    splice (splice line b) b = splice line b := by
  have h1 : splice (splice line b) b
      = (splice line b).take 60 ++ pyFmt62 b ++ (splice line b).drop 66 := rfl
  rw [h1, splice_take60 line b h60, splice_drop66 line b h60 hb]
  rfl

theorem rewriteLine_idem (d : BDict) (dv : BFloat) (line : List Char)
    (h : (line.take 6 = atomTag ∨ line.take 6 = hetatmTag) →
      60 ≤ line.length ∧ (pyFmt62 (lineValue d dv line)).length = 6) :
    rewriteLine d dv (rewriteLine d dv line) = rewriteLine d dv line := by
  by_cases ha : line.take 6 = atomTag
  · obtain ⟨h60, hfmt⟩ := h (Or.inl ha)
    have hv : lineValue d dv line
        = bfacLookup d (chainOf line) (seqOf line) dv := by
      simp [lineValue, ha]
    rw [hv] at hfmt
    have h1 : rewriteLine d dv line
        = splice line (bfacLookup d (chainOf line) (seqOf line) dv) := by
      simp [rewriteLine, ha]
    rw [h1]
    have hsa : (splice line
        (bfacLookup d (chainOf line) (seqOf line) dv)).take 6 = atomTag := by
      rw [splice_take6 _ _ h60, ha]
    have h2 : rewriteLine d dv (splice line
        (bfacLookup d (chainOf line) (seqOf line) dv))
        = splice (splice line (bfacLookup d (chainOf line) (seqOf line) dv))
            (bfacLookup d
              (chainOf (splice line (bfacLookup d (chainOf line) (seqOf line) dv)))
              (seqOf (splice line (bfacLookup d (chainOf line) (seqOf line) dv)))
              dv) := by
      simp [rewriteLine, hsa]
    rw [h2, splice_chainOf _ _ h60, splice_seqOf _ _ h60]
    exact splice_splice _ _ h60 hfmt
  · by_cases hh : line.take 6 = hetatmTag
    · obtain ⟨h60, hfmt⟩ := h (Or.inr hh)
      have hne : hetatmTag ≠ atomTag := by decide
      have hv : lineValue d dv line = dv := by
        simp [lineValue, ha]
      rw [hv] at hfmt
      have h1 : rewriteLine d dv line = splice line dv := by
        simp [rewriteLine, ha, hh, hne]
      rw [h1]
      have hsh : (splice line dv).take 6 = hetatmTag := by
        rw [splice_take6 _ _ h60, hh]
      have hsa : ¬ (splice line dv).take 6 = atomTag := by
        rw [hsh]; exact hne
      have h2 : rewriteLine d dv (splice line dv)
          = splice (splice line dv) dv := by
        simp [rewriteLine, hsa, hsh, hne]
      rw [h2]
      exact splice_splice _ _ h60 hfmt
    · simp [rewriteLine, ha, hh]

/-! ## Loader lemmas -/

theorem parseBfacLine_error_iff (d : BDict) (l : List Char) :
    (∃ e, parseBfacLine d l = .error e) ↔ malformedLine l = true := by
  rcases hsp : pySplit l with _ | ⟨t0, _ | ⟨t1, _ | ⟨t2, rest⟩⟩⟩
  · simp [parseBfacLine, malformedLine, hsp]
  · simp [parseBfacLine, malformedLine, hsp]
  · simp [parseBfacLine, malformedLine, hsp]
  · cases hf : pyFloat? t2 with
    | none => simp [parseBfacLine, malformedLine, hsp, hf]
    | some b => simp [parseBfacLine, malformedLine, hsp, hf]

theorem parseBfacLine_ok_shape (d : BDict) (l : List Char) (d2 : BDict)
    (h : parseBfacLine d l = .ok d2) :
    ∃ t0 t1 t2 rest b, pySplit l = t0 :: t1 :: t2 :: rest ∧
      pyFloat? t2 = some b ∧ d2 = ddSetBfac d t0 t1 b := by
  rcases hsp : pySplit l with _ | ⟨t0, _ | ⟨t1, _ | ⟨t2, rest⟩⟩⟩
  · simp [parseBfacLine, hsp] at h
  · simp [parseBfacLine, hsp] at h
  · simp [parseBfacLine, hsp] at h
  · cases hf : pyFloat? t2 with
    | none => simp [parseBfacLine, hsp, hf] at h
    | some b =>
      simp only [parseBfacLine, hsp, hf, Except.ok.injEq] at h
      exact ⟨t0, t1, t2, rest, b, rfl, hf, h.symm⟩

theorem createGo_error_iff (ls : List (List Char)) : ∀ d : BDict,
    (∃ e, createGo d ls = .error e) ↔ ∃ l ∈ ls, malformedLine l = true := by
  induction ls with
  | nil => intro d; simp [createGo]
  | cons l ls ih =>
    intro d
    cases hp : parseBfacLine d l with
    | ok d2 =>
      have hm : ¬ malformedLine l = true := by
        rw [← parseBfacLine_error_iff d l]
        rintro ⟨e, he⟩
        rw [hp] at he
        cases he
      simp only [createGo, hp]
      rw [ih d2]
      simp [hm]
    | error e =>
      have hm : malformedLine l = true :=
        (parseBfacLine_error_iff d l).mp ⟨e, hp⟩
      simp only [createGo, hp]
      constructor
      · intro _; exact ⟨l, List.mem_cons_self l ls, hm⟩
      · intro _; exact ⟨e, rfl⟩

theorem createGo_append (xs ys : List (List Char)) : ∀ d : BDict,
    createGo d (xs ++ ys) =
      match createGo d xs with
      | .ok d2 => createGo d2 ys
      | .error e => .error e := by
  induction xs with
  | nil => intro d; simp [createGo]
  | cons l xs ih =>
    intro d
    simp only [List.cons_append, createGo]
    cases hp : parseBfacLine d l with
    | ok d2 => simp [ih d2]
    | error e => simp

theorem createGo_ok_inners_ne_nil (ls : List (List Char)) : ∀ d d' : BDict,
    (∀ c inner, lookupKV d c = some inner → inner ≠ []) →
    createGo d ls = .ok d' →
    ∀ c inner, lookupKV d' c = some inner → inner ≠ [] := by
  induction ls with
  | nil =>
    intro d d' hinv h
    unfold createGo at h
    cases h
    exact hinv
  | cons l ls ih =>
    intro d d' hinv h
    unfold createGo at h
    cases hp : parseBfacLine d l with
    | error e => rw [hp] at h; cases h
    | ok d2 =>
      rw [hp] at h
      refine ih d2 d' ?_ h
      obtain ⟨t0, t1, t2, rest, b, _, _, rfl⟩ := parseBfacLine_ok_shape d l d2 hp
      intro c inner hlook
      rw [ddSetBfac_lookup] at hlook
      by_cases hc : t0 = c
      · rw [if_pos hc] at hlook
        injection hlook with hlook
        rw [← hlook]
        exact setKV_ne_nil _ _ _
      · rw [if_neg hc] at hlook
        exact hinv c inner hlook

theorem ddSetBfac_bind_other (d : BDict) (c s : Key) (v : BFloat)
    (t0 t1 : Key) (h : ¬(c = t0 ∧ s = t1)) :
    (lookupKV (ddSetBfac d c s v) t0).bind (fun inner => lookupKV inner t1)
      = (lookupKV d t0).bind (fun inner => lookupKV inner t1) := by
  rw [ddSetBfac_lookup]
  by_cases hc : c = t0
  · subst hc
    have hs : ¬ s = t1 := fun hs => h ⟨rfl, hs⟩
    rw [if_pos rfl]
    cases hd : lookupKV d c with
    | none => simp [hd, lookupKV_setKV, hs, lookupKV]
    | some inner => simp [hd, lookupKV_setKV, hs]
  · rw [if_neg hc]

theorem createGo_preserves_lookup (t0 t1 : Key) :
    ∀ (ls : List (List Char)) (d d' : BDict),
    createGo d ls = .ok d' →
    (∀ l' ∈ ls, ¬((pySplit l')[0]? = some t0 ∧ (pySplit l')[1]? = some t1)) →
    (lookupKV d' t0).bind (fun inner => lookupKV inner t1)
      = (lookupKV d t0).bind (fun inner => lookupKV inner t1) := by
  intro ls
  induction ls with
  | nil =>
    intro d d' h _
    unfold createGo at h
    cases h
    rfl
  | cons l0 ls ih =>
    intro d d' h hnone
    unfold createGo at h
    cases hp : parseBfacLine d l0 with
    | error e => rw [hp] at h; cases h
    | ok d2 =>
      rw [hp] at h
      obtain ⟨u0, u1, u2, urest, b0, husp, huf, hd2⟩ :=
        parseBfacLine_ok_shape d l0 d2 hp
      have hne : ¬(u0 = t0 ∧ u1 = t1) := by
        rintro ⟨e0, e1⟩
        exact hnone l0 (List.mem_cons_self l0 ls)
          ⟨by simp [husp, e0], by simp [husp, e1]⟩
      rw [ih d2 d' h (fun l' hl' => hnone l' (List.mem_cons_of_mem _ hl')),
        hd2, ddSetBfac_bind_other d u0 u1 b0 t0 t1 hne]

theorem createGo_last_wins (t0 t1 : Key) :
    ∀ (ls : List (List Char)) (d0 d' : BDict),
    createGo d0 ls = .ok d' →
    ∀ (i : Nat) (l t2 : List Char) (rest : List (List Char)) (b : BFloat),
    ls[i]? = some l →
    pySplit l = t0 :: t1 :: t2 :: rest →
    pyFloat? t2 = some b →
    (∀ j l', i < j → ls[j]? = some l' →
      ¬((pySplit l')[0]? = some t0 ∧ (pySplit l')[1]? = some t1)) →
    (lookupKV d' t0).bind (fun inner => lookupKV inner t1) = some b := by
  intro ls
  induction ls with
  | nil =>
    intro d0 d' h i l t2 rest b hget
    simp at hget
  | cons l0 ls ih =>
    intro d0 d' h i l t2 rest b hget hsp hf hlast
    unfold createGo at h
    cases hp : parseBfacLine d0 l0 with
    | error e => rw [hp] at h; cases h
    | ok d2 =>
      rw [hp] at h
      obtain ⟨u0, u1, u2, urest, b0, husp, huf, hd2⟩ :=
        parseBfacLine_ok_shape d0 l0 d2 hp
      cases i with
      | zero =>
        have hl : l0 = l := by simpa using hget
        subst hl
        rw [hsp] at husp
        obtain ⟨e0, e1, e2, _⟩ : t0 = u0 ∧ t1 = u1 ∧ t2 = u2 ∧ rest = urest := by
          simpa using husp
        subst e0
        subst e1
        subst e2
        rw [hf] at huf
        injection huf with hb
        have hpres := createGo_preserves_lookup t0 t1 ls d2 d' h
          (fun l' hl' => by
            obtain ⟨j, hj⟩ := List.getElem?_of_mem hl'
            exact hlast (j + 1) l' (by omega) (by simpa using hj))
        rw [hpres, hd2, ddSetBfac_lookup]
        simp [lookupKV_setKV, hb]
      | succ n =>
        refine ih d2 d' h n l t2 rest b (by simpa using hget) hsp hf ?_
        intro j l' hij hj
        exact hlast (j + 1) l' (by omega) (by simpa using hj)

/-! ## The claims -/

/-- C1: every input line whose first six characters are `ATOM  ` is
rewritten to its first 60 characters, then the table value for the
stripped chain id (columns 20-22) and sequence id (columns 23-26) when
both keys are present — the default value otherwise — formatted by the
6-wide 2-decimal right-justified format, then the characters from
column 66 on. -/
theorem atom_line_output (pdb : List (List Char)) (d : BDict) (dv : BFloat)
    (i : Nat) (line : List Char) (hi : pdb[i]? = some line)
    (ha : line.take 6 = atomTag) :
    ((insert_bfac_into_pdb pdb d dv).1)[i]? =
      some (line.take 60 ++
        pyFmt62 (bfacLookup d (pyStrip ((line.drop 20).take 2))
          (pyStrip ((line.drop 23).take 3)) dv) ++
        line.drop 66) := by
  rw [insert_eq]
  simp only [List.getElem?_map, hi, Option.map_some]
  simp [rewriteLine, ha, splice, chainOf, seqOf]

/-- C1 witness: the spec's concrete scenario, an `ATOM` line for chain
`A`, sequence `5`, with the table mapping `(A, 5)` to `42.1`. -/
theorem atom_line_output_witness :
    ((insert_bfac_into_pdb
        [("ATOM      1  N   ALA A   5      11.104  12.345  13.678  1.00  0.00           N").data]
        [((("A").data), [((("5").data), BFloat.val false 421 10)])]
        (BFloat.val false 0 1)).1)[0]? =
      some (("ATOM      1  N   ALA A   5      11.104  12.345  13.678  1.00  0.00           N").data.take 60 ++
        pyFmt62 (bfacLookup [((("A").data), [((("5").data), BFloat.val false 421 10)])]
          (pyStrip ((("ATOM      1  N   ALA A   5      11.104  12.345  13.678  1.00  0.00           N").data.drop 20).take 2))
          (pyStrip ((("ATOM      1  N   ALA A   5      11.104  12.345  13.678  1.00  0.00           N").data.drop 23).take 3))
          (BFloat.val false 0 1)) ++
        ("ATOM      1  N   ALA A   5      11.104  12.345  13.678  1.00  0.00           N").data.drop 66) :=
  atom_line_output _ _ _ 0 _ (by rfl) (by rfl)

/-- C2: every input line whose first six characters are `HETATM` gets
the default value spliced into columns 60-66, whatever the table
contains. -/
theorem hetatm_line_output (pdb : List (List Char)) (d : BDict) (dv : BFloat)
    (i : Nat) (line : List Char) (hi : pdb[i]? = some line)
    (hh : line.take 6 = hetatmTag) :
    ((insert_bfac_into_pdb pdb d dv).1)[i]? =
      some (line.take 60 ++ pyFmt62 dv ++ line.drop 66) := by
  have hne : hetatmTag ≠ atomTag := by decide
  rw [insert_eq]
  simp only [List.getElem?_map, hi, Option.map_some]
  simp [rewriteLine, hh, hne, splice]

/-- C2 witness: a `HETATM` line whose chain/sequence pair `(A, 5)` is in
the table with value `42.1`; the output still carries the default `0`. -/
theorem hetatm_line_output_witness :
    ((insert_bfac_into_pdb
        [("HETATM    1  O   HOH A   5      11.104  12.345  13.678  1.00  0.00           O").data]
        [((("A").data), [((("5").data), BFloat.val false 421 10)])]
        (BFloat.val false 0 1)).1)[0]? =
      some (("HETATM    1  O   HOH A   5      11.104  12.345  13.678  1.00  0.00           O").data.take 60 ++
        pyFmt62 (BFloat.val false 0 1) ++
        ("HETATM    1  O   HOH A   5      11.104  12.345  13.678  1.00  0.00           O").data.drop 66) :=
  hetatm_line_output _ _ _ 0 _ (by rfl) (by rfl)

/-- C3: a line classified neither `ATOM  ` nor `HETATM` passes through
byte-for-byte, for every table and default. -/
theorem other_line_unchanged (pdb : List (List Char)) (d : BDict)
    (dv : BFloat) (i : Nat) (line : List Char) (hi : pdb[i]? = some line)
    (h1 : line.take 6 ≠ atomTag) (h2 : line.take 6 ≠ hetatmTag) :
    ((insert_bfac_into_pdb pdb d dv).1)[i]? = some line := by
  rw [insert_eq]
  simp only [List.getElem?_map, hi, Option.map_some]
  simp [rewriteLine, h1, h2]

/-- C3 witness: a `REMARK` line is emitted unchanged. -/
theorem other_line_unchanged_witness :
    ((insert_bfac_into_pdb
        [("REMARK 350 APPLY THE FOLLOWING TO CHAINS: A").data]
        [((("A").data), [((("5").data), BFloat.val false 421 10)])]
        (BFloat.val false 0 1)).1)[0]? =
      some (("REMARK 350 APPLY THE FOLLOWING TO CHAINS: A").data) :=
  other_line_unchanged _ _ _ 0 _ (by rfl) (by decide) (by decide)

/-- C7: the output has exactly the lines of the input, in order, each
produced from the input line at the same position. -/
theorem output_length_and_order (pdb : List (List Char)) (d : BDict)
    (dv : BFloat) :
    (insert_bfac_into_pdb pdb d dv).1.length = pdb.length ∧
    ∀ i : Nat, ((insert_bfac_into_pdb pdb d dv).1)[i]? =
      (pdb[i]?).map (fun line => (processLine d dv line).1) := by
  rw [insert_eq]
  refine ⟨by simp, fun i => ?_⟩
  simp [processLine_eq]

/-- C9: the rewriter is free of side effects on its dictionary
argument: the `defaultdict` it was handed is the same dictionary when
the rewrite ends (the input list, a pure value here, cannot change).
In particular an absent chain id never causes an insertion. -/
theorem rewriter_no_side_effects (pdb : List (List Char)) (d : BDict)
    (dv : BFloat) :
    (insert_bfac_into_pdb pdb d dv).2 = d := by
  rw [insert_eq]

/-- C10: a classified line shorter than 66 characters is still
processed: the output is the first `min(length, 60)` characters, the
formatted value, and the (empty) tail from column 66. -/
theorem short_line_total (d : BDict) (dv : BFloat) (line : List Char)
    (hcls : line.take 6 = atomTag ∨ line.take 6 = hetatmTag)
    (hshort : line.length < 66) :
    (processLine d dv line).1 =
      line.take 60 ++ pyFmt62 (lineValue d dv line) ++ line.drop 66 ∧
    (line.take 60).length = min line.length 60 ∧
    line.drop 66 = [] := by
  refine ⟨?_, by rw [List.length_take, Nat.min_comm],
    List.drop_eq_nil_of_le (by omega)⟩
  rw [processLine_eq]
  rcases hcls with ha | hh
  · simp [rewriteLine, ha, lineValue, splice]
  · have hne : hetatmTag ≠ atomTag := by decide
    have hna : line.take 6 ≠ atomTag := by rw [hh]; exact hne
    simp [rewriteLine, hna, hh, hne, lineValue, splice]

/-- C4 counterexample: with the table value `10000` for `(A, 5)`, the
formatted field `10000.00` is eight characters wide, so the rewritten
scenario line is longer than its 78-character input. -/
theorem length_preservation_counterexample :
    ¬ (((insert_bfac_into_pdb
        [("ATOM      1  N   ALA A   5      11.104  12.345  13.678  1.00  0.00           N").data]
        [((("A").data), [((("5").data), BFloat.val false 10000 1)])]
        (BFloat.val false 0 1)).1)[0]?.map List.length =
      some (("ATOM      1  N   ALA A   5      11.104  12.345  13.678  1.00  0.00           N").data.length)) := by
  decide

/-- C4 amended: for a modified line of length at least 66 whose spliced
value formats to exactly six characters, the output line keeps the input
length and every character outside columns 60-66. -/
theorem length_preservation_amended (pdb : List (List Char)) (d : BDict)
    (dv : BFloat) (i : Nat) (ln : List Char) (hi : pdb[i]? = some ln)
    (hcls : ln.take 6 = atomTag ∨ ln.take 6 = hetatmTag)
    (hlen : 66 ≤ ln.length)
    (hfmt : (pyFmt62 (lineValue d dv ln)).length = 6) :
    ∃ out, ((insert_bfac_into_pdb pdb d dv).1)[i]? = some out ∧
      out.length = ln.length ∧
      (∀ j, j < 60 → out[j]? = ln[j]?) ∧
      (∀ j, 66 ≤ j → out[j]? = ln[j]?) := by
  have hT : (ln.take 60).length = 60 := by
    rw [List.length_take]; omega
  have hrw : rewriteLine d dv ln = splice ln (lineValue d dv ln) := by
    rcases hcls with ha | hh
    · simp [rewriteLine, lineValue, ha]
    · have hne : hetatmTag ≠ atomTag := by decide
      have hna : ln.take 6 ≠ atomTag := by rw [hh]; exact hne
      simp [rewriteLine, lineValue, hna, hh, hne]
  refine ⟨splice ln (lineValue d dv ln), ?_, ?_, ?_, ?_⟩
  · rw [insert_eq]
    simp [List.getElem?_map, hi, hrw]
  · exact splice_length _ _ hlen hfmt
  · intro j hj
    unfold splice
    rw [List.getElem?_append_left (by rw [List.length_append, hT]; omega),
      List.getElem?_append_left (by rw [hT]; omega),
      List.getElem?_take_of_lt hj]
  · intro j hj
    unfold splice
    rw [List.getElem?_append_right (by rw [List.length_append, hT, hfmt]; omega)]
    rw [List.length_append, hT, hfmt, List.getElem?_drop]
    congr 1
    omega

/-- C4 amended witness: the scenario line with an empty table and
default `0`; the field becomes `  0.00` and length 78 is kept. -/
theorem length_preservation_amended_witness :
    ∃ out, ((insert_bfac_into_pdb
        [("ATOM      1  N   ALA A   5      11.104  12.345  13.678  1.00  0.00           N").data]
        ([] : BDict) (BFloat.val false 0 1)).1)[0]? = some out ∧
      out.length = ("ATOM      1  N   ALA A   5      11.104  12.345  13.678  1.00  0.00           N").data.length ∧
      (∀ j, j < 60 → out[j]? = (("ATOM      1  N   ALA A   5      11.104  12.345  13.678  1.00  0.00           N").data)[j]?) ∧
      (∀ j, 66 ≤ j → out[j]? = (("ATOM      1  N   ALA A   5      11.104  12.345  13.678  1.00  0.00           N").data)[j]?) :=
  length_preservation_amended _ _ _ 0 _ (by rfl) (Or.inl (by rfl))
    (by decide) (by decide)

/-- C5 counterexample: on the six-character line `ATOM  ` one pass
yields `ATOM    0.00` and a second pass appends another formatted field,
so the rewrite is not idempotent on arbitrary inputs. -/
theorem idempotence_counterexample :
    (insert_bfac_into_pdb
        (insert_bfac_into_pdb [("ATOM  ").data] ([] : BDict) (BFloat.val false 0 1)).1
        ([] : BDict) (BFloat.val false 0 1)).1
      ≠ (insert_bfac_into_pdb [("ATOM  ").data] ([] : BDict) (BFloat.val false 0 1)).1 := by
  decide

/-- C5 amended: the rewrite is idempotent whenever every classified
(`ATOM  `/`HETATM`) input line is at least 60 characters long and its
spliced value formats to exactly six characters. -/
theorem idempotence_amended (pdb : List (List Char)) (d : BDict)
    (dv : BFloat)
    (h : ∀ line ∈ pdb, (line.take 6 = atomTag ∨ line.take 6 = hetatmTag) →
      60 ≤ line.length ∧ (pyFmt62 (lineValue d dv line)).length = 6) :
    (insert_bfac_into_pdb (insert_bfac_into_pdb pdb d dv).1 d dv).1
      = (insert_bfac_into_pdb pdb d dv).1 := by
  simp only [insert_eq, List.map_map]
  apply List.map_congr_left
  intro a ha
  exact rewriteLine_idem d dv a (h a ha)

/-- C5 amended witness: a two-line file (the scenario `ATOM` line and a
`REMARK` line) with the scenario table; a second pass changes nothing. -/
theorem idempotence_amended_witness :
    (insert_bfac_into_pdb
        (insert_bfac_into_pdb
          [("ATOM      1  N   ALA A   5      11.104  12.345  13.678  1.00  0.00           N").data,
            ("REMARK 350 APPLY THE FOLLOWING TO CHAINS: A").data]
          [((("A").data), [((("5").data), BFloat.val false 421 10)])] (BFloat.val false 0 1)).1
        [((("A").data), [((("5").data), BFloat.val false 421 10)])] (BFloat.val false 0 1)).1
      = (insert_bfac_into_pdb
          [("ATOM      1  N   ALA A   5      11.104  12.345  13.678  1.00  0.00           N").data,
            ("REMARK 350 APPLY THE FOLLOWING TO CHAINS: A").data]
          [((("A").data), [((("5").data), BFloat.val false 421 10)])] (BFloat.val false 0 1)).1 :=
  idempotence_amended _ _ _ (by decide)

/-- C6: the loader fails (with an `IndexError`/`ValueError`-style parse
error) exactly when some non-blank line of the annotation file has
fewer than three whitespace-separated tokens or a third token `float`
rejects; on failure no table is returned (the result is `.error`). -/
theorem load_error_iff_malformed (fileLines : List (List Char)) :
    (∃ e, create_bfac_dict fileLines = .error e) ↔
      ∃ l ∈ fileLines, pyRstrip l ≠ [] ∧ malformedLine (pyRstrip l) = true := by
  unfold create_bfac_dict
  rw [createGo_error_iff]
  constructor
  · rintro ⟨l', hl', hm⟩
    unfold filteredLines at hl'
    rw [List.mem_filter] at hl'
    obtain ⟨hmem, hne⟩ := hl'
    obtain ⟨l, hl, rfl⟩ := List.mem_map.mp hmem
    refine ⟨l, hl, ?_, hm⟩
    intro h0
    rw [h0] at hne
    simp at hne
  · rintro ⟨l, hl, hne, hm⟩
    refine ⟨pyRstrip l, ?_, hm⟩
    unfold filteredLines
    rw [List.mem_filter]
    refine ⟨List.mem_map.mpr ⟨l, hl, rfl⟩, ?_⟩
    simp [List.isEmpty_iff, hne]

/-- C6 witness: a file whose second line has only two tokens makes the
loader abort. -/
theorem load_error_iff_malformed_witness :
    ∃ e, create_bfac_dict [("A 5 42.10").data, ("B 7").data] = .error e :=
  (load_error_iff_malformed _).mpr
    ⟨("B 7").data, by decide, by decide, by decide⟩

/-- C8: the loader skips blank lines (they change nothing, so no crash
and no empty entry arises from them), never stores an empty inner
mapping, and when several lines share a (chain, sequence) pair the
finished table holds the value of the last such line: a parsed line
with no later same-keyed line determines the table's entry. -/
theorem loader_blank_lines_and_last_wins :
    (∀ (xs ys : List (List Char)) (blank : List Char),
      pyRstrip blank = [] →
        create_bfac_dict (xs ++ blank :: ys) = create_bfac_dict (xs ++ ys))
    ∧ (∀ (fileLines : List (List Char)) (d : BDict) (chain : Key)
        (inner : InnerDict),
        create_bfac_dict fileLines = .ok d →
        lookupKV d chain = some inner → inner ≠ [])
    ∧ (∀ (fileLines : List (List Char)) (d : BDict) (i : Nat)
        (l t0 t1 t2 : List Char) (rest : List (List Char)) (b : BFloat),
        create_bfac_dict fileLines = .ok d →
        (filteredLines fileLines)[i]? = some l →
        pySplit l = t0 :: t1 :: t2 :: rest →
        pyFloat? t2 = some b →
        (∀ j l', i < j → (filteredLines fileLines)[j]? = some l' →
          ¬((pySplit l')[0]? = some t0 ∧ (pySplit l')[1]? = some t1)) →
        (lookupKV d t0).bind (fun inner => lookupKV inner t1) = some b) := by
  refine ⟨?_, ?_, ?_⟩
  · intro xs ys blank hblank
    have hfl : filteredLines (xs ++ blank :: ys) = filteredLines (xs ++ ys) := by
      simp [filteredLines, hblank]
    simp [create_bfac_dict, hfl]
  · intro fileLines d chain inner hok hlook
    refine createGo_ok_inners_ne_nil (filteredLines fileLines) [] d
      ?_ hok chain inner hlook
    intro c i0 h0
    simp [lookupKV] at h0
  · intro fileLines d i l t0 t1 t2 rest b hok hget hsp hf hlast
    unfold create_bfac_dict at hok
    exact createGo_last_wins t0 t1 (filteredLines fileLines) [] d hok
      i l t2 rest b hget hsp hf hlast

/-- C8 witness: in the file `A 5 1.0`, `A 5 2.0`, `B 6 3.0` the pair
`(A, 5)` occurs twice with the duplicate in the middle of the file; the
table holds the later value `2.0`. -/
theorem loader_blank_lines_and_last_wins_witness :
    (lookupKV ([((("A").data), [((("5").data), BFloat.val false 20 10)]),
        ((("B").data), [((("6").data), BFloat.val false 30 10)])] : BDict)
        (("A").data)).bind
      (fun inner => lookupKV inner (("5").data)) = some (BFloat.val false 20 10) :=
  loader_blank_lines_and_last_wins.2.2
    [("A 5 1.0").data, ("A 5 2.0").data, ("B 6 3.0").data]
    [((("A").data), [((("5").data), BFloat.val false 20 10)]),
      ((("B").data), [((("6").data), BFloat.val false 30 10)])]
    1 (("A 5 2.0").data) (("A").data) (("5").data) (("2.0").data) []
    (BFloat.val false 20 10)
    (by rfl) (by rfl) (by rfl) (by rfl)
    (by
      intro j l' hij hj
      have hF : filteredLines
          [("A 5 1.0").data, ("A 5 2.0").data, ("B 6 3.0").data]
          = [("A 5 1.0").data, ("A 5 2.0").data, ("B 6 3.0").data] := by rfl
      rw [hF] at hj
      rcases j with _ | _ | _ | n
      · omega
      · omega
      · have hl : l' = ("B 6 3.0").data := by
          have := hj
          simp at this
          exact this.symm
        subst hl
        decide
      · rw [List.getElem?_eq_none
          (by simp only [List.length_cons, List.length_nil]; omega)] at hj
        cases hj)

/-- C10 witness: the 6-character line `ATOM  ` (length 6 < 66) is
rewritten without error to the 12-character `ATOM    0.00`. -/
theorem short_line_total_witness :
    (processLine ([] : BDict) (BFloat.val false 0 1) (("ATOM  ").data)).1 =
      ("ATOM  ").data.take 60 ++
        pyFmt62 (lineValue ([] : BDict) (BFloat.val false 0 1) (("ATOM  ").data)) ++
        ("ATOM  ").data.drop 66 ∧
    ((("ATOM  ").data).take 60).length = min (("ATOM  ").data).length 60 ∧
    (("ATOM  ").data).drop 66 = [] :=
  short_line_total _ _ _ (Or.inl (by rfl)) (by decide)

end InsertBfactor
